import Mathlib

/-!
Verification development for the market-data identity-resolution and
multi-source retrieval engine of this repository.

The Python sources embedded here are
  scripts/ticker_registry.py  (TickerRegistry, Security)
  scripts/fetch_unified.py    (UnifiedMarketDataFetcher)
plus, for the corporate-actions adjuster whose implementation file is not
part of the shipped sources, a model written from the specification text.

Modelling conventions:
  Python dictionaries become association lists that preserve insertion
  order and overwrite in place; string case functions are the ASCII maps,
  matching the ASCII identifiers the registry handles; timestamps and log
  output are outside the model; persistence is modelled by a counter of
  save operations since the claims only observe whether a write happened.
-/

/-- Association-list lookup, mirroring a Python dict read. -/
def lookupA {α β : Type} [DecidableEq α] : List (α × β) → α → Option β
  | [], _ => none
  | (k, v) :: rest, key => if key = k then some v else lookupA rest key

/-- Association-list insert-or-overwrite, mirroring a Python dict write:
the key keeps its original position when overwritten, otherwise it is
appended. -/
def insertA {α β : Type} [DecidableEq α] : List (α × β) → α → β → List (α × β)
  | [], k, v => [(k, v)]
  | (k0, v0) :: rest, k, v =>
    if k = k0 then (k, v) :: rest else (k0, v0) :: insertA rest k v

/-- Python truthiness of an optional string: None and the empty string are
falsy. -/
def truthy? : Option String → Option String
  | none => none
  | some s => if s = "" then none else some s

/-- ASCII uppercase map, modelling the Python str.upper call on the ASCII
identifiers the registry handles. -/
def strUpper (s : String) : String := String.mk (s.data.map Char.toUpper)

/-- ASCII lowercase map, modelling the Python str.lower call. -/
def strLower (s : String) : String := String.mk (s.data.map Char.toLower)

/-- ASCII letter test, modelling Python str.isalpha on ASCII input. -/
def isAsciiAlpha (c : Char) : Bool :=
  ('A' ≤ c && c ≤ 'Z') || ('a' ≤ c && c ≤ 'z')

/-- ASCII letter-or-digit test, modelling Python str.isalnum on ASCII
input. -/
def isAsciiAlnum (c : Char) : Bool :=
  isAsciiAlpha c || ('0' ≤ c && c ≤ '9')

/-- Uppercase ASCII letter test. -/
def isUpperAlpha (c : Char) : Bool := 'A' ≤ c && c ≤ 'Z'

/-- Python str.isupper on ASCII input: at least one cased character and no
lowercase cased character. -/
def pyIsUpper (s : String) : Bool :=
  s.data.any isAsciiAlpha && s.data.all (fun c => !('a' ≤ c && c ≤ 'z'))

/-- List version of string startsWith used by the embedding. -/
def startsWithL : List Char → List Char → Bool
  | [], _ => true
  | _ :: _, [] => false
  | a :: as, b :: bs => a == b && startsWithL as bs

/-- Whether the string s starts with pre, modelling Python str.startswith. -/
def strStarts (s pre : String) : Bool := startsWithL pre.data s.data

/-- Substring search helper on character lists. -/
def hasSubL (sub : List Char) : List Char → Bool
  | [] => startsWithL sub []
  | c :: t => startsWithL sub (c :: t) || hasSubL sub t

/-- Whether sub occurs inside s, modelling the Python in operator on
strings. -/
def strContains (s sub : String) : Bool := hasSubL sub.data s.data

/-- Security record from ticker_registry.py.  The tickers field is the
per-provider alias dictionary with optional values; last_updated is a
wall-clock timestamp and is outside the model. -/
structure Security where
  uid : String
  isin : Option String
  name : String
  instrumentType : String
  country : String
  exchange : String
  tickers : List (String × Option String)
  metadata : List (String × String)
  mappingSource : String
deriving DecidableEq, Repr

/-- Security.get_ticker: dictionary read of the alias for one provider. -/
def Security.getTicker (sec : Security) (source : String) : Option String :=
  match lookupA sec.tickers source with
  | some v => v
  | none => none

/-- In-memory state of TickerRegistry: the securities map keyed by uid, the
reverse ticker index, the auto_discover flag, and a counter of persistence
writes standing in for the CSV file. -/
structure RegState where
  securities : List (String × Security)
  tickerIndex : List (String × String)
  autoDiscover : Bool
  saveLog : Nat
deriving DecidableEq

/-- A registry that starts with no securities loaded. -/
def emptyState (autoDiscover : Bool) : RegState :=
  { securities := [], tickerIndex := [], autoDiscover := autoDiscover, saveLog := 0 }

/-- TickerRegistry._looks_like_isin: 12 characters, first two alphabetic,
remaining ten alphanumeric. -/
def looksLikeIsin (s : String) : Bool :=
  s.length == 12 && (s.data.take 2).all isAsciiAlpha && (s.data.drop 2).all isAsciiAlnum

/-- TickerRegistry.get_security, extended to also return the storage key of
the found record so that in-place object mutation elsewhere can be
modelled as an update at that key.  The cascade is: exact uid match; ISIN
shape with the isin_ prefixed uid; uppercase ticker-index lookup;
lowercase ticker-index lookup; otherwise nothing.  A hit in the ticker
index returns whatever the securities map holds for the indexed uid, as in
the source. -/
def getSecurityEntry (s : RegState) (identifier : String) : Option (String × Security) :=
  match lookupA s.securities identifier with
  | some sec => some (identifier, sec)
  | none =>
    match (if looksLikeIsin identifier
           then lookupA s.securities ("isin_" ++ identifier) else none) with
    | some sec => some ("isin_" ++ identifier, sec)
    | none =>
      match truthy? (lookupA s.tickerIndex (strUpper identifier)) with
      | some pk => (lookupA s.securities pk).map (fun sec => (pk, sec))
      | none =>
        match truthy? (lookupA s.tickerIndex (strLower identifier)) with
        | some pk => (lookupA s.securities pk).map (fun sec => (pk, sec))
        | none => none

/-- TickerRegistry.get_security: the security resolved for an identifier. -/
def getSecurity (s : RegState) (identifier : String) : Option Security :=
  (getSecurityEntry s identifier).map (fun e => e.2)

/-- Ticker-index updates performed by register_security for the tickers
dictionary of one security: every truthy alias is indexed uppercase, and
stooq aliases are additionally indexed lowercase. -/
def indexTickers (uid : String) :
    List (String × Option String) → List (String × String) → List (String × String)
  | [], idx => idx
  | st :: rest, idx =>
    match truthy? st.2 with
    | some tk =>
      indexTickers uid rest
        (if st.1 = "stooq"
         then insertA (insertA idx (strUpper tk) uid) (strLower tk) uid
         else insertA idx (strUpper tk) uid)
    | none => indexTickers uid rest idx

/-- TickerRegistry.register_security.  A security without a uid raises in
the source before any mutation, so the state is returned unchanged in that
case.  Otherwise the security is stored under its uid, its ISIN (when
truthy) is indexed verbatim, and its aliases are indexed. -/
def registerSecurity (s : RegState) (sec : Security) : RegState :=
  if sec.uid = "" then s
  else
    let secs := insertA s.securities sec.uid sec
    let idx0 :=
      match truthy? sec.isin with
      | some i => insertA s.tickerIndex i sec.uid
      | none => s.tickerIndex
    { s with securities := secs, tickerIndex := indexTickers sec.uid sec.tickers idx0 }

/-- TickerRegistry.add_ticker_mapping: resolve the identifier, and on a
miss return False with the state untouched; on a hit mutate the found
record in place with the new alias, index it uppercase under the record
primary key, and persist when asked. -/
def addTickerMapping (s : RegState) (identifier source ticker : String)
    (persist : Bool) : Bool × RegState :=
  match getSecurityEntry s identifier with
  | none => (false, s)
  | some (k, sec) =>
    let sec' := { sec with tickers := insertA sec.tickers source (some ticker) }
    let s' := { s with securities := insertA s.securities k sec',
                       tickerIndex := insertA s.tickerIndex (strUpper ticker) sec.uid }
    (true, if persist then { s' with saveLog := s'.saveLog + 1 } else s')

/-- TickerRegistry._infer_type_from_ticker. -/
def inferTypeFromTicker (yahooTicker : String) : String :=
  if strStarts yahooTicker "^" then "index"
  else if strContains yahooTicker "=X" then "currency"
  else "equity"

/-- TickerRegistry._infer_exchange_from_ticker. -/
def inferExchangeFromTicker (yahooTicker : String) : String :=
  if strContains yahooTicker ".WA" then "WSE"
  else if strContains yahooTicker ".L" then "LSE"
  else if strContains yahooTicker ".DE" then "XETRA"
  else if !(strContains yahooTicker ".") then "NYSE/NASDAQ"
  else ""

/-- TickerRegistry._create_security_from_discovery. -/
def createSecurityFromDiscovery (isin yahooTicker : String) : Security :=
  { uid := "isin_" ++ isin
    isin := some isin
    name := "[Auto] " ++ yahooTicker
    instrumentType := inferTypeFromTicker yahooTicker
    country := String.mk (isin.data.take 2)
    exchange := inferExchangeFromTicker yahooTicker
    tickers := [("yahoo", some yahooTicker)]
    metadata := []
    mappingSource := "yahoo_api" }

/-- TickerRegistry._discover_from_isin.  The Yahoo search API is the
discovery delegate collaborator; its exceptions are already folded into a
None result by _lookup_yahoo_ticker.  The returned number counts delegate
invocations. -/
def discoverFromIsin (delegate : String → Option String) (s : RegState)
    (isin : String) : Option Security × RegState × Nat :=
  match delegate isin with
  | none => (none, s, 1)
  | some yt =>
    let sec := createSecurityFromDiscovery isin yt
    let s1 := registerSecurity s sec
    (some sec, { s1 with saveLog := s1.saveLog + 1 }, 1)

/-- TickerRegistry.convert_ticker: resolve, fall back to ISIN auto
discovery when enabled, then read the alias for the target source.  The
returned number counts delegate invocations. -/
def convertTicker (delegate : String → Option String) (s : RegState)
    (ticker toSource : String) : Option String × RegState × Nat :=
  match getSecurity s ticker with
  | some sec => (sec.getTicker toSource, s, 0)
  | none =>
    if s.autoDiscover && looksLikeIsin ticker then
      match discoverFromIsin delegate s ticker with
      | (some sec, s', n) => (sec.getTicker toSource, s', n)
      | (none, s', n) => (none, s', n)
    else (none, s, 0)

/-- Polish stock symbol list from fetch_unified.py. -/
def POLISH_STOCKS : List String :=
  ["pko", "cdr", "pzu", "peo", "pkn", "kgh", "pge", "lpp",
   "ale", "dnp", "cps", "jsw", "pzu", "tpe", "mil", "orange"]

/-- Polish index list from fetch_unified.py. -/
def POLISH_INDICES : List String :=
  ["wig", "wig20", "mwig40", "swig80", "wig30", "wig-ukraine"]

/-- NBP currency code list from fetch_unified.py. -/
def NBP_CURRENCIES : List String :=
  ["USD", "EUR", "GBP", "CHF", "JPY", "CAD", "AUD", "SEK",
   "NOK", "DKK", "CZK", "HUF", "RON", "BGN", "HRK"]

/-- Whether any FRED_PATTERNS regular expression matches the uppercased
ticker: two to ten uppercase letters anchored both ends, or a string
containing RATE, CPI or GDP.  In the source the availability of the fred
fetcher is tested inside the pattern loop, which is equivalent to testing
it once against any match since it does not vary per pattern. -/
def fredAnyMatch (u : String) : Bool :=
  (decide (2 ≤ u.length) && decide (u.length ≤ 10) && u.data.all isUpperAlpha)
  || strContains u "RATE" || strContains u "CPI" || strContains u "GDP"

/-- Configuration of UnifiedMarketDataFetcher: the names of the
constructed fetchers in insertion order, the behaviour of each provider
call (the collaborator contract: a standardized series stands in as a
number, a raised fetch exception as an error message), the NBP import
flag, and the is_crypto_symbol predicate imported from the crypto fetcher
module. -/
structure FetchEnv where
  fetchers : List String
  call : String → String → Except String Nat
  nbpAvailable : Bool
  cryptoPred : String → Bool

/-- UnifiedMarketDataFetcher._route_ticker: the fixed-order pattern
decision list for an identifier the registry did not resolve. -/
def routeTicker (env : FetchEnv) (ticker : String) : List String :=
  let tl := strLower ticker
  let tu := strUpper ticker
  if env.cryptoPred ticker && env.fetchers.contains "ccxt" then ["ccxt"]
  else if POLISH_STOCKS.contains tl then
    ["stooq", "yahoo"]
      ++ (if env.fetchers.contains "tiingo" then ["tiingo"] else []) ++ ["pdr"]
  else if POLISH_INDICES.contains tl then ["stooq", "yahoo", "pdr"]
  else if NBP_CURRENCIES.contains tu && env.nbpAvailable then ["nbp", "stooq", "yahoo"]
  else if decide (tu.length = 6) && tu.data.all isUpperAlpha then ["stooq", "yahoo", "pdr"]
  else if fredAnyMatch tu && env.fetchers.contains "fred" then ["fred", "pdr"]
  else if strStarts ticker "^" then ["yahoo", "stooq", "pdr"]
  else if pyIsUpper ticker && decide (1 ≤ ticker.length) && decide (ticker.length ≤ 5) then
    ["yahoo"]
      ++ (if env.fetchers.contains "tiingo" then ["tiingo"] else [])
      ++ (if env.fetchers.contains "financialdata" then ["financialdata"] else [])
      ++ ["pdr", "stooq"]
  else if strContains ticker "." then
    let suffix := strUpper (((ticker.splitOn ".").getLastD ""))
    if suffix = "WA" then ["yahoo", "stooq", "pdr"]
    else
      ["yahoo"]
        ++ (if env.fetchers.contains "tiingo" then ["tiingo"] else [])
        ++ (if env.fetchers.contains "financialdata" then ["financialdata"] else [])
        ++ ["pdr", "stooq"]
  else
    ["yahoo"]
      ++ (if env.fetchers.contains "tiingo" then ["tiingo"] else [])
      ++ (if env.fetchers.contains "financialdata" then ["financialdata"] else [])
      ++ ["stooq", "pdr"]

/-- UnifiedMarketDataFetcher._route_security: priority list keyed by
instrument type and geography, filtered to fetchers holding a usable
alias, with the NBP currency-code derivation from a fx_ uid, and the
full-fetcher ISIN-or-uid fallback when no alias matched. -/
def routeSecurity (env : FetchEnv) (sec : Security) :
    List String × List (String × String) :=
  let priority :=
    if sec.instrumentType = "equity" then
      if sec.country = "PL" then ["stooq", "yahoo", "pdr"] else ["yahoo", "stooq", "pdr"]
    else if sec.instrumentType = "index" then
      if sec.country = "PL" then ["stooq", "yahoo", "pdr"] else ["yahoo", "stooq", "pdr"]
    else if sec.instrumentType = "currency" then
      if sec.uid ≠ "" && strContains sec.uid "PLN" then ["nbp", "stooq", "yahoo"]
      else ["stooq", "yahoo", "pdr"]
    else ["yahoo", "stooq", "pdr"]
  let walk := priority.foldl (fun (acc : List String × List (String × String)) src =>
    if !(env.fetchers.contains src) then acc
    else
      match truthy? (sec.getTicker src) with
      | some t => (acc.1 ++ [src], acc.2 ++ [(src, t)])
      | none =>
        if src = "nbp" && sec.instrumentType = "currency"
            && sec.uid ≠ "" && strStarts sec.uid "fx_" then
          (acc.1 ++ [src], acc.2 ++ [(src, String.mk ((sec.uid.data.drop 3).take 3))])
        else acc) ([], [])
  if walk.1.isEmpty then
    let fallback := match truthy? sec.isin with
      | some i => i
      | none => sec.uid
    (env.fetchers, env.fetchers.map (fun s => (s, fallback)))
  else walk

/-- Result of UnifiedMarketDataFetcher.fetch: a standardized series, an
exception propagated from the forced-source path, or the terminal
ValueError raised after every candidate failed, which carries the
last recorded per-provider error. -/
inductive FetchResult where
  | ok (data : Nat)
  | raised (msg : String)
  | exhausted (lastError : Option String)
deriving DecidableEq, Repr

/-- UnifiedMarketDataFetcher._fetch_from_source: an unconfigured source
raises before any provider call; a configured one invokes the provider.
The second component lists the providers actually invoked. -/
def fetchFromSource (env : FetchEnv) (src tk : String) :
    Except String Nat × List String :=
  if env.fetchers.contains src then (env.call src tk, [src])
  else (Except.error ("Source " ++ src ++ " not available"), [])

/-- The fallback loop of UnifiedMarketDataFetcher.fetch: try each
candidate in order, remembering the most recent error; exhaustion raises
the terminal error carrying that single last error. -/
def tryLoop (env : FetchEnv) (tmap : List (String × String)) (id : String) :
    List String → Option String → FetchResult × List String
  | [], lastErr => (FetchResult.exhausted lastErr, [])
  | src :: rest, _ =>
    let tk := (lookupA tmap src).getD id
    match fetchFromSource env src tk with
    | (Except.ok d, att) => (FetchResult.ok d, att)
    | (Except.error e, att) =>
      let r := tryLoop env tmap id rest (some e)
      (r.1, att ++ r.2)

/-- The security the orchestrator resolves for an identifier, when a
registry is configured. -/
def regSecurityOf (reg : Option RegState) (id : String) : Option Security :=
  match reg with
  | some r => getSecurity r id
  | none => none

/-- The candidate source list and per-source ticker map computed by
UnifiedMarketDataFetcher.fetch before its fallback loop. -/
def candidates (env : FetchEnv) (reg : Option RegState) (id : String) :
    List String × List (String × String) :=
  match regSecurityOf reg id with
  | some sec => routeSecurity env sec
  | none => ((routeTicker env id), (routeTicker env id).map (fun s => (s, id)))

/-- UnifiedMarketDataFetcher.fetch.  A forced source skips routing, still
applies the registry alias for that source when one exists, and lets any
error propagate; otherwise the ranked candidates are tried in order. -/
def fetchUni (env : FetchEnv) (reg : Option RegState) (id : String)
    (forced : Option String) : FetchResult × List String :=
  match forced with
  | some src =>
    let ticker :=
      match regSecurityOf reg id with
      | some sec =>
        match truthy? (sec.getTicker src) with
        | some t => t
        | none => id
      | none => id
    (match fetchFromSource env src ticker with
     | (Except.ok d, att) => (FetchResult.ok d, att)
     | (Except.error e, att) => (FetchResult.raised e, att))
  | none =>
    let c := candidates env reg id
    tryLoop env c.2 id c.1 none

/-- The outcome of attempting one candidate source inside the fallback
loop, with the per-source ticker substitution applied. -/
def attemptRes (env : FetchEnv) (tmap : List (String × String))
    (id src : String) : Except String Nat :=
  (fetchFromSource env src ((lookupA tmap src).getD id)).1

/-- Whether a provider attempt raised. -/
def isErrE : Except String Nat → Bool
  | Except.error _ => true
  | Except.ok _ => false

/-- The error carried by a provider attempt, if any. -/
def errOf : Except String Nat → Option String
  | Except.error e => some e
  | Except.ok _ => none

/-- The per-provider failures carried by a fetch outcome. -/
def carriedFailures : FetchResult → List String
  | FetchResult.exhausted (some e) => [e]
  | FetchResult.exhausted none => []
  | _ => []

/-- Modelled from the spec: the corporate-actions adjuster is not among
the shipped source files, so the per-date event divisor is taken from the
specification text: the divisor of a date is the product of the divisors
of every event on that date, defaulting to one. -/
def eventDivisor (events : List (Int × ℚ)) (d : Int) : ℚ :=
  events.foldl (fun acc e => if e.1 = d then acc * e.2 else acc) 1

/-- Insert a date into a strictly descending date list, keeping it sorted
and duplicate free. -/
def insertDesc (d : Int) : List Int → List Int
  | [] => [d]
  | x :: xs => if d > x then d :: x :: xs else if d = x then x :: xs else x :: insertDesc d xs

/-- The sorted union of a list of dates, most recent first. -/
def sortedUnionDesc (ds : List Int) : List Int :=
  ds.foldl (fun acc d => insertDesc d acc) []

/-- Modelled from the spec: the scan of the sorted date union from most
recent to oldest, accumulating the running product of per-date event
divisors; each date is paired with its cumulative divisor, which includes
the divisor of its own events. -/
def buildCum (events : List (Int × ℚ)) : List Int → ℚ → List (Int × ℚ)
  | [], _ => []
  | d :: rest, run =>
    (d, run * eventDivisor events d) :: buildCum events rest (run * eventDivisor events d)

/-- Modelled from the spec: the corporate-actions adjuster.  The shipped
sources contain only the specification of this component, not its
implementation file, so adjust is written from the specification text:
build the sorted union of price and event dates, scan it from most recent
to oldest accumulating cumulative divisors, join them back onto the price
rows by date, and divide Close by the cumulative divisor.  A price row is
returned as date, close and adjusted close. -/
def adjust (prices events : List (Int × ℚ)) : List (Int × ℚ × ℚ) :=
  let dates := sortedUnionDesc (prices.map Prod.fst ++ events.map Prod.fst)
  let cum := buildCum events dates 1
  prices.map (fun p => (p.1, p.2, p.2 / ((lookupA cum p.1).getD 1)))

/-- The product of the divisors of the dates of a date list that are on or
after a given date. -/
def prodGE (events : List (Int × ℚ)) (d : Int) : List Int → ℚ
  | [] => 1
  | x :: xs => (if d ≤ x then eventDivisor events x else 1) * prodGE events d xs

/-- Registry states reachable from an empty registry by any sequence of
register_security and add_ticker_mapping operations.  Loading the
persisted table replays register_security per row, so loaded states are
also of this shape. -/
inductive ReachableReg : RegState → Prop where
  | init (autoDiscover : Bool) : ReachableReg (emptyState autoDiscover)
  | register {s : RegState} (sec : Security) :
      ReachableReg s → ReachableReg (registerSecurity s sec)
  | mapping {s : RegState} (id src tk : String) (p : Bool) :
      ReachableReg s → ReachableReg (addTickerMapping s id src tk p).2

/-- The internal well-formedness invariant of the registry: every stored
security sits under its own non-empty uid, every index entry points at a
present security through a non-empty key, and every non-empty alias of a
stored security has an uppercase index entry. -/
structure InvS (s : RegState) : Prop where
  uidKey : ∀ k sec, lookupA s.securities k = some sec → sec.uid = k ∧ k ≠ ""
  idxOk : ∀ k pk, lookupA s.tickerIndex k = some pk →
    pk ≠ "" ∧ (lookupA s.securities pk).isSome = true
  aliasIdx : ∀ k sec src t, lookupA s.securities k = some sec →
    lookupA sec.tickers src = some (some t) → t ≠ "" →
    (lookupA s.tickerIndex (strUpper t)).isSome = true

/-- A concrete security used by witnesses: a Polish equity with a Yahoo
alias and a stooq alias. -/
def secW : Security :=
  { uid := "uid1"
    isin := some "PLXTRDM00011"
    name := "XTB"
    instrumentType := "equity"
    country := "PL"
    exchange := "WSE"
    tickers := [("yahoo", some "XTB.WA"), ("stooq", some "xtb")]
    metadata := []
    mappingSource := "manual" }

/-- A concrete registry holding only secW. -/
def regW : RegState := registerSecurity (emptyState true) secW

/-- A concrete discovery delegate used by witnesses. -/
def delegateW : String → Option String := fun _ => some "XTB.WA"

/-- A concrete fetcher configuration with three providers that all fail,
used by witnesses and counterexamples. -/
def envPlain : FetchEnv :=
  { fetchers := ["yahoo", "stooq", "pdr"]
    call := fun s _ => Except.error ("fail-" ++ s)
    nbpAvailable := false
    cryptoPred := fun _ => false }

/-- A concrete fetcher configuration in which the FRED provider is
configured, used by the routing counterexample. -/
def envFred : FetchEnv :=
  { fetchers := ["stooq", "nbp", "yahoo", "fred", "pdr"]
    call := fun _ _ => Except.error "down"
    nbpAvailable := true
    cryptoPred := fun _ => false }

/-- A concrete fetcher configuration whose first provider fails and whose
second succeeds, used by witnesses. -/
def envOk : FetchEnv :=
  { fetchers := ["yahoo", "stooq", "pdr"]
    call := fun s _ => if s = "stooq" then Except.ok 7 else Except.error ("fail-" ++ s)
    nbpAvailable := false
    cryptoPred := fun _ => false }

lemma lookupA_insertA {α β : Type} [DecidableEq α] (l : List (α × β)) (k k' : α) (v : β) :
    lookupA (insertA l k v) k' = if k' = k then some v else lookupA l k' := by
  induction l with
  | nil => simp [insertA, lookupA]
  | cons hd t ih =>
    obtain ⟨k0, v0⟩ := hd
    by_cases hk : k = k0
    · subst hk
      by_cases hk' : k' = k <;> simp [insertA, lookupA, hk']
    · by_cases hk' : k' = k0
      · subst hk'
        have hne : k' ≠ k := fun h => hk h.symm
        simp [insertA, lookupA, hk, hne]
      · simp [insertA, lookupA, hk, hk', ih]

lemma lookupA_mem {α β : Type} [DecidableEq α] {l : List (α × β)} {k : α} {v : β}
    (h : lookupA l k = some v) : (k, v) ∈ l := by
  induction l with
  | nil => simp [lookupA] at h
  | cons hd t ih =>
    obtain ⟨k0, v0⟩ := hd
    simp only [lookupA] at h
    by_cases hk : k = k0
    · rw [if_pos hk] at h
      injection h with hv
      subst hk
      subst hv
      exact List.mem_cons_self _ _
    · rw [if_neg hk] at h
      exact List.mem_cons_of_mem _ (ih h)

lemma lookupA_isSome_insertA {α β : Type} [DecidableEq α] (l : List (α × β)) (k k' : α) (v : β)
    (h : (lookupA l k').isSome = true) : (lookupA (insertA l k v) k').isSome = true := by
  rw [lookupA_insertA]
  by_cases hk : k' = k <;> simp [hk, h]

/-- C10: for an identifier that resolves to no security, add_ticker_mapping
returns False and leaves the whole registry state, including the
persistence counter, unchanged. -/
theorem c10_add_mapping_noop (s : RegState) (id src tk : String) (p : Bool)
    (h : getSecurity s id = none) :
    addTickerMapping s id src tk p = (false, s) := by
  have he : getSecurityEntry s id = none := by
    cases hE : getSecurityEntry s id with
    | none => rfl
    | some e =>
      rw [getSecurity, hE] at h
      simp at h
  simp [addTickerMapping, he]

theorem c10_witness :
    getSecurity (emptyState true) "NOPE" = none ∧
    addTickerMapping (emptyState true) "NOPE" "yahoo" "X" true = (false, emptyState true) :=
  ⟨rfl, c10_add_mapping_noop (emptyState true) "NOPE" "yahoo" "X" true rfl⟩

/-- C9: a forced source that is not among the configured fetchers makes
fetch raise at once, before any provider is invoked; the fallback chain is
never consulted. -/
theorem c9_forced_unavailable (env : FetchEnv) (reg : Option RegState) (id src : String)
    (h : env.fetchers.contains src = false) :
    fetchUni env reg id (some src) =
      (FetchResult.raised ("Source " ++ src ++ " not available"), []) := by
  have h' : src ∉ env.fetchers := by simpa using h
  simp [fetchUni, fetchFromSource, h']

theorem c9_witness :
    envPlain.fetchers.contains "tiingo" = false ∧
    fetchUni envPlain none "AAPL" (some "tiingo") =
      (FetchResult.raised ("Source " ++ "tiingo" ++ " not available"), []) :=
  ⟨by decide, c9_forced_unavailable envPlain none "AAPL" "tiingo" (by decide)⟩

/-- C2: get_security tries, in order, the exact uid, the isin_ prefixed
uid when the identifier has ISIN shape, the uppercase ticker index, the
lowercase ticker index, and resolves to nothing when all four miss. -/
theorem c2_resolve_order (s : RegState) (id : String) :
    (∀ sec, lookupA s.securities id = some sec → getSecurity s id = some sec) ∧
    (lookupA s.securities id = none → looksLikeIsin id = true →
      ∀ sec, lookupA s.securities ("isin_" ++ id) = some sec →
        getSecurity s id = some sec) ∧
    (lookupA s.securities id = none →
      (if looksLikeIsin id then lookupA s.securities ("isin_" ++ id) else none) = none →
      ∀ pk sec, truthy? (lookupA s.tickerIndex (strUpper id)) = some pk →
        lookupA s.securities pk = some sec → getSecurity s id = some sec) ∧
    (lookupA s.securities id = none →
      (if looksLikeIsin id then lookupA s.securities ("isin_" ++ id) else none) = none →
      truthy? (lookupA s.tickerIndex (strUpper id)) = none →
      ∀ pk sec, truthy? (lookupA s.tickerIndex (strLower id)) = some pk →
        lookupA s.securities pk = some sec → getSecurity s id = some sec) ∧
    (lookupA s.securities id = none →
      (if looksLikeIsin id then lookupA s.securities ("isin_" ++ id) else none) = none →
      truthy? (lookupA s.tickerIndex (strUpper id)) = none →
      truthy? (lookupA s.tickerIndex (strLower id)) = none →
      getSecurity s id = none) := by
  refine ⟨?_, ?_, ?_, ?_, ?_⟩
  · intro sec h1
    simp [getSecurity, getSecurityEntry, h1]
  · intro h1 hiso sec h2
    simp [getSecurity, getSecurityEntry, h1, hiso, h2]
  · intro h1 h2 pk sec h3 h4
    simp [getSecurity, getSecurityEntry, h1, h2, h3, h4]
  · intro h1 h2 h3 pk sec h4 h5
    simp [getSecurity, getSecurityEntry, h1, h2, h3, h4, h5]
  · intro h1 h2 h3 h4
    simp [getSecurity, getSecurityEntry, h1, h2, h3, h4]

theorem c2_witness :
    getSecurity regW "uid1" = some secW ∧
    getSecurity regW "PLXTRDM00011" = some secW ∧
    getSecurity regW "ZZ0000000000" = none :=
  ⟨(c2_resolve_order regW "uid1").1 secW (by decide),
   (c2_resolve_order regW "PLXTRDM00011").2.2.1 (by decide) (by decide)
     "uid1" secW (by decide) (by decide),
   (c2_resolve_order regW "ZZ0000000000").2.2.2.2 (by decide) (by decide)
     (by decide) (by decide)⟩

lemma indexTickers_step_stooq (uid : String) (st : String × Option String)
    (rest : List (String × Option String)) (idx : List (String × String)) {tk : String}
    (hst : truthy? st.2 = some tk) (hq : st.1 = "stooq") :
    indexTickers uid (st :: rest) idx =
      indexTickers uid rest (insertA (insertA idx (strUpper tk) uid) (strLower tk) uid) := by
  simp [indexTickers, hst, hq]

lemma indexTickers_step_plain (uid : String) (st : String × Option String)
    (rest : List (String × Option String)) (idx : List (String × String)) {tk : String}
    (hst : truthy? st.2 = some tk) (hq : ¬ st.1 = "stooq") :
    indexTickers uid (st :: rest) idx =
      indexTickers uid rest (insertA idx (strUpper tk) uid) := by
  simp [indexTickers, hst, hq]

lemma indexTickers_step_skip (uid : String) (st : String × Option String)
    (rest : List (String × Option String)) (idx : List (String × String))
    (hst : truthy? st.2 = none) :
    indexTickers uid (st :: rest) idx = indexTickers uid rest idx := by
  simp [indexTickers, hst]

lemma indexTickers_lookup (uid : String) (ts : List (String × Option String)) :
    ∀ (idx : List (String × String)) (k : String),
      lookupA (indexTickers uid ts idx) k = some uid ∨
      lookupA (indexTickers uid ts idx) k = lookupA idx k := by
  induction ts with
  | nil => intro idx k; right; rfl
  | cons st rest ih =>
    intro idx k
    cases hst : truthy? st.2 with
    | none => rw [indexTickers_step_skip uid st rest idx hst]; exact ih idx k
    | some tk =>
      by_cases hq : st.1 = "stooq"
      · rw [indexTickers_step_stooq uid st rest idx hst hq]
        rcases ih (insertA (insertA idx (strUpper tk) uid) (strLower tk) uid) k with h | h
        · left; exact h
        · rw [lookupA_insertA, lookupA_insertA] at h
          by_cases h1 : k = strLower tk
          · left; rw [h, if_pos h1]
          · by_cases h2 : k = strUpper tk
            · left; rw [h, if_neg h1, if_pos h2]
            · right; rw [h, if_neg h1, if_neg h2]
      · rw [indexTickers_step_plain uid st rest idx hst hq]
        rcases ih (insertA idx (strUpper tk) uid) k with h | h
        · left; exact h
        · rw [lookupA_insertA] at h
          by_cases h2 : k = strUpper tk
          · left; rw [h, if_pos h2]
          · right; rw [h, if_neg h2]

lemma indexTickers_written (uid : String) {ts : List (String × Option String)}
    {src tk : String} (hmem : (src, some tk) ∈ ts) (hne : tk ≠ "") :
    ∀ idx, lookupA (indexTickers uid ts idx) (strUpper tk) = some uid := by
  induction ts with
  | nil => exact absurd hmem (List.not_mem_nil _)
  | cons st rest ih =>
    intro idx
    rcases List.mem_cons.mp hmem with heq | htail
    · have hst : truthy? st.2 = some tk := by rw [← heq]; simp [truthy?, hne]
      have hidx : ∀ idx', lookupA (insertA idx' (strUpper tk) uid) (strUpper tk) = some uid := by
        intro idx'; rw [lookupA_insertA]; simp
      by_cases hq : st.1 = "stooq"
      · rw [indexTickers_step_stooq uid st rest idx hst hq]
        have hbase :
            lookupA (insertA (insertA idx (strUpper tk) uid) (strLower tk) uid)
              (strUpper tk) = some uid := by
          rw [lookupA_insertA]
          by_cases hcase : strUpper tk = strLower tk
          · rw [if_pos hcase]
          · rw [if_neg hcase, hidx]
        rcases indexTickers_lookup uid rest
            (insertA (insertA idx (strUpper tk) uid) (strLower tk) uid) (strUpper tk)
          with h | h
        · exact h
        · rw [h, hbase]
      · rw [indexTickers_step_plain uid st rest idx hst hq]
        rcases indexTickers_lookup uid rest (insertA idx (strUpper tk) uid) (strUpper tk)
          with h | h
        · exact h
        · rw [h, hidx]
    · cases hst : truthy? st.2 with
      | none => rw [indexTickers_step_skip uid st rest idx hst]; exact ih htail _
      | some tk2 =>
        by_cases hq : st.1 = "stooq"
        · rw [indexTickers_step_stooq uid st rest idx hst hq]; exact ih htail _
        · rw [indexTickers_step_plain uid st rest idx hst hq]; exact ih htail _

lemma register_index_alias (s : RegState) (sec : Security) {src tk : String}
    (hu : sec.uid ≠ "") (ht : lookupA sec.tickers src = some (some tk)) (hne : tk ≠ "") :
    lookupA (registerSecurity s sec).tickerIndex (strUpper tk) = some sec.uid := by
  have hmem := lookupA_mem ht
  rw [registerSecurity, if_neg hu]
  exact indexTickers_written sec.uid hmem hne _

lemma register_securities_lookup (s : RegState) (sec : Security) (k : String)
    (hu : sec.uid ≠ "") :
    lookupA (registerSecurity s sec).securities k =
      if k = sec.uid then some sec else lookupA s.securities k := by
  rw [registerSecurity, if_neg hu]
  exact lookupA_insertA _ _ _ _

/-- C7: registering a security carrying the alias XTB.WA makes both the
original-case and the lowercase identifier resolve to that security, as
long as neither spelling collides with a stored uid. -/
theorem c7_register_roundtrip (s : RegState) (sec : Security) (src : String)
    (hu : sec.uid ≠ "")
    (ht : lookupA sec.tickers src = some (some "XTB.WA"))
    (h1 : lookupA (registerSecurity s sec).securities "XTB.WA" = none)
    (h2 : lookupA (registerSecurity s sec).securities "xtb.wa" = none) :
    getSecurity (registerSecurity s sec) "XTB.WA" = some sec ∧
    getSecurity (registerSecurity s sec) "xtb.wa" = some sec := by
  have hupU : strUpper "XTB.WA" = "XTB.WA" := by decide
  have hupL : strUpper "xtb.wa" = "XTB.WA" := by decide
  have hidx : lookupA (registerSecurity s sec).tickerIndex "XTB.WA" = some sec.uid := by
    rw [← hupU]
    exact register_index_alias s sec hu ht (by decide)
  have hsec : lookupA (registerSecurity s sec).securities sec.uid = some sec := by
    rw [register_securities_lookup s sec sec.uid hu, if_pos rfl]
  have hiso1 : looksLikeIsin "XTB.WA" = false := by decide
  have hiso2 : looksLikeIsin "xtb.wa" = false := by decide
  constructor
  · simp [getSecurity, getSecurityEntry, h1, hiso1, hupU, hidx, truthy?, hu, hsec]
  · simp [getSecurity, getSecurityEntry, h2, hiso2, hupL, hidx, truthy?, hu, hsec]

theorem c7_witness :
    getSecurity regW "XTB.WA" = some secW ∧ getSecurity regW "xtb.wa" = some secW :=
  c7_register_roundtrip (emptyState true) secW "yahoo" (by decide) (by decide)
    (by decide) (by decide)

lemma getSecurityEntry_lookup {s : RegState} {id k : String} {sec : Security}
    (h : getSecurityEntry s id = some (k, sec)) :
    lookupA s.securities k = some sec := by
  unfold getSecurityEntry at h
  cases h1 : lookupA s.securities id with
  | some sec1 =>
    rw [h1] at h
    simp only [Option.some.injEq, Prod.mk.injEq] at h
    obtain ⟨hk, hs⟩ := h
    subst hk
    subst hs
    exact h1
  | none =>
    rw [h1] at h
    cases h2 : (if looksLikeIsin id then lookupA s.securities ("isin_" ++ id) else none) with
    | some sec2 =>
      rw [h2] at h
      simp only [Option.some.injEq, Prod.mk.injEq] at h
      obtain ⟨hk, hs⟩ := h
      subst hk
      subst hs
      by_cases hiso : looksLikeIsin id
      · rw [if_pos hiso] at h2
        exact h2
      · rw [if_neg hiso] at h2
        exact absurd h2 (by simp)
    | none =>
      rw [h2] at h
      cases h3 : truthy? (lookupA s.tickerIndex (strUpper id)) with
      | some pk1 =>
        rw [h3] at h
        rcases Option.map_eq_some'.mp h with ⟨sec1, hl, he⟩
        injection he with he1 he2
        subst he1
        subst he2
        exact hl
      | none =>
        rw [h3] at h
        cases h4 : truthy? (lookupA s.tickerIndex (strLower id)) with
        | some pk2 =>
          rw [h4] at h
          rcases Option.map_eq_some'.mp h with ⟨sec1, hl, he⟩
          injection he with he1 he2
          subst he1
          subst he2
          exact hl
        | none =>
          rw [h4] at h
          exact absurd h (by simp)

lemma register_tickerIndex (s : RegState) (sec : Security) (hu : sec.uid ≠ "") :
    (registerSecurity s sec).tickerIndex =
      indexTickers sec.uid sec.tickers
        (match truthy? sec.isin with
         | some i => insertA s.tickerIndex i sec.uid
         | none => s.tickerIndex) := by
  rw [registerSecurity, if_neg hu]

lemma idx0_lookup (s : RegState) (sec : Security) (k : String) :
    lookupA (match truthy? sec.isin with
             | some i => insertA s.tickerIndex i sec.uid
             | none => s.tickerIndex) k = some sec.uid ∨
    lookupA (match truthy? sec.isin with
             | some i => insertA s.tickerIndex i sec.uid
             | none => s.tickerIndex) k = lookupA s.tickerIndex k := by
  cases hi : truthy? sec.isin with
  | none =>
    right
    rfl
  | some i =>
    show lookupA (insertA s.tickerIndex i sec.uid) k = some sec.uid ∨
      lookupA (insertA s.tickerIndex i sec.uid) k = lookupA s.tickerIndex k
    rw [lookupA_insertA]
    by_cases hk : k = i
    · left
      rw [if_pos hk]
    · right
      rw [if_neg hk]

lemma register_index_lookup (s : RegState) (sec : Security) (hu : sec.uid ≠ "")
    (k : String) :
    lookupA (registerSecurity s sec).tickerIndex k = some sec.uid ∨
    lookupA (registerSecurity s sec).tickerIndex k = lookupA s.tickerIndex k := by
  rw [register_tickerIndex s sec hu]
  rcases indexTickers_lookup sec.uid sec.tickers _ k with h | h
  · left
    exact h
  · rcases idx0_lookup s sec k with h0 | h0
    · left
      rw [h, h0]
    · right
      rw [h, h0]

lemma inv_empty (ad : Bool) : InvS (emptyState ad) := by
  refine ⟨?_, ?_, ?_⟩
  · intro k sec h
    simp [emptyState, lookupA] at h
  · intro k pk h
    simp [emptyState, lookupA] at h
  · intro k sec src t h ht hne
    simp [emptyState, lookupA] at h

lemma inv_register {s : RegState} (hs : InvS s) (sec : Security) :
    InvS (registerSecurity s sec) := by
  by_cases hu : sec.uid = ""
  · rw [registerSecurity, if_pos hu]
    exact hs
  · refine ⟨?_, ?_, ?_⟩
    · intro k sec2 h
      rw [register_securities_lookup s sec k hu] at h
      by_cases hk : k = sec.uid
      · rw [if_pos hk] at h
        injection h with h
        subst h
        exact ⟨hk.symm, fun he => hu (hk ▸ he)⟩
      · rw [if_neg hk] at h
        exact hs.uidKey k sec2 h
    · intro k pk h
      rcases register_index_lookup s sec hu k with hc | hc
      · rw [hc] at h
        injection h with h
        subst h
        refine ⟨hu, ?_⟩
        rw [register_securities_lookup s sec sec.uid hu, if_pos rfl]
        rfl
      · rw [hc] at h
        obtain ⟨h1, h2⟩ := hs.idxOk k pk h
        refine ⟨h1, ?_⟩
        rw [register_securities_lookup s sec pk hu]
        by_cases hk : pk = sec.uid <;> simp [hk, h2]
    · intro k sec2 src t h ht hne
      rw [register_securities_lookup s sec k hu] at h
      by_cases hk : k = sec.uid
      · rw [if_pos hk] at h
        injection h with h
        subst h
        have hmem := lookupA_mem ht
        rw [register_tickerIndex s sec hu]
        rw [indexTickers_written sec.uid hmem hne _]
        rfl
      · rw [if_neg hk] at h
        have hold := hs.aliasIdx k sec2 src t h ht hne
        rcases register_index_lookup s sec hu (strUpper t) with hc | hc
        · rw [hc]
          rfl
        · rw [hc]
          exact hold

lemma inv_mapping {s : RegState} (hs : InvS s) (id src tk : String) (p : Bool) :
    InvS (addTickerMapping s id src tk p).2 := by
  cases he : getSecurityEntry s id with
  | none => simpa [addTickerMapping, he] using hs
  | some e =>
    obtain ⟨k, sec⟩ := e
    have hk0 : lookupA s.securities k = some sec := getSecurityEntry_lookup he
    obtain ⟨huid, hkne⟩ := hs.uidKey k sec hk0
    have hsecs : (addTickerMapping s id src tk p).2.securities
        = insertA s.securities k { sec with tickers := insertA sec.tickers src (some tk) } := by
      cases p <;> simp [addTickerMapping, he]
    have hidx : (addTickerMapping s id src tk p).2.tickerIndex
        = insertA s.tickerIndex (strUpper tk) sec.uid := by
      cases p <;> simp [addTickerMapping, he]
    refine ⟨?_, ?_, ?_⟩
    · intro k2 sec2 h
      rw [hsecs, lookupA_insertA] at h
      by_cases hk2 : k2 = k
      · rw [if_pos hk2] at h
        injection h with h
        subst h
        exact ⟨by simpa using huid.trans hk2.symm, fun he2 => hkne (hk2 ▸ he2)⟩
      · rw [if_neg hk2] at h
        exact hs.uidKey k2 sec2 h
    · intro k2 pk h
      rw [hidx, lookupA_insertA] at h
      by_cases hk2 : k2 = strUpper tk
      · rw [if_pos hk2] at h
        injection h with h
        subst h
        refine ⟨by rw [huid]; exact hkne, ?_⟩
        rw [hsecs, lookupA_insertA, huid]
        simp
      · rw [if_neg hk2] at h
        obtain ⟨h1, h2⟩ := hs.idxOk k2 pk h
        refine ⟨h1, ?_⟩
        rw [hsecs]
        exact lookupA_isSome_insertA _ _ _ _ h2
    · intro k2 sec2 src2 t h ht hne
      rw [hsecs, lookupA_insertA] at h
      by_cases hk2 : k2 = k
      · rw [if_pos hk2] at h
        injection h with h
        subst h
        have htick : lookupA (insertA sec.tickers src (some tk)) src2 = some (some t) := ht
        rw [lookupA_insertA] at htick
        by_cases hsrc : src2 = src
        · rw [if_pos hsrc] at htick
          injection htick with htick
          injection htick with htick
          subst htick
          rw [hidx, lookupA_insertA, if_pos rfl]
          rfl
        · rw [if_neg hsrc] at htick
          have hold := hs.aliasIdx k sec src2 t hk0 htick hne
          rw [hidx]
          exact lookupA_isSome_insertA _ _ _ _ hold
      · rw [if_neg hk2] at h
        have hold := hs.aliasIdx k2 sec2 src2 t h ht hne
        rw [hidx]
        exact lookupA_isSome_insertA _ _ _ _ hold

lemma reachable_inv {s : RegState} (h : ReachableReg s) : InvS s := by
  induction h with
  | init ad => exact inv_empty ad
  | register sec _ ih => exact inv_register ih sec
  | mapping id src tk p _ ih => exact inv_mapping ih id src tk p

lemma inv_resolves {s : RegState} (hs : InvS s) {k src t : String} {sec : Security}
    (h : lookupA s.securities k = some sec)
    (ht : lookupA sec.tickers src = some (some t)) (hne : t ≠ "") :
    (getSecurity s t).isSome = true := by
  rw [getSecurity]
  cases h1 : lookupA s.securities t with
  | some sec1 => simp [getSecurityEntry, h1]
  | none =>
    cases h2 : (if looksLikeIsin t then lookupA s.securities ("isin_" ++ t) else none) with
    | some sec2 => simp [getSecurityEntry, h1, h2]
    | none =>
      have hidx := hs.aliasIdx k sec src t h ht hne
      rcases Option.isSome_iff_exists.mp hidx with ⟨pk, hpk⟩
      obtain ⟨hpkne, hpksome⟩ := hs.idxOk _ pk hpk
      have htr : truthy? (lookupA s.tickerIndex (strUpper t)) = some pk := by
        rw [hpk]
        simp [truthy?, hpkne]
      rcases Option.isSome_iff_exists.mp hpksome with ⟨sec3, hsec3⟩
      simp [getSecurityEntry, h1, h2, htr, hsec3]

/-- C8: in every registry reachable by register_security and
add_ticker_mapping operations, every non-empty alias stored in a
registered security resolves to some security through the reverse ticker
index; and registering a security writes its aliases over any previous
index entries, so a conflicting alias maps to the security registered
last. -/
theorem c8_alias_invariant :
    (∀ s, ReachableReg s → ∀ k sec src t,
       lookupA s.securities k = some sec →
       lookupA sec.tickers src = some (some t) → t ≠ "" →
       (getSecurity s t).isSome = true) ∧
    (∀ (s : RegState) (sec : Security) (src t : String), sec.uid ≠ "" →
       lookupA sec.tickers src = some (some t) → t ≠ "" →
       lookupA (registerSecurity s sec).tickerIndex (strUpper t) = some sec.uid) := by
  constructor
  · intro s hr k sec src t h ht hne
    exact inv_resolves (reachable_inv hr) h ht hne
  · intro s sec src t hu ht hne
    exact register_index_alias s sec hu ht hne

theorem c8_witness :
    (getSecurity regW "XTB.WA").isSome = true ∧
    lookupA (registerSecurity (emptyState true) secW).tickerIndex
      (strUpper "XTB.WA") = some "uid1" :=
  ⟨c8_alias_invariant.1 regW (ReachableReg.register secW (ReachableReg.init true))
      "uid1" secW "yahoo" "XTB.WA" (by decide) (by decide) (by decide),
   c8_alias_invariant.2 (emptyState true) secW "yahoo" "XTB.WA" (by decide)
     (by decide) (by decide)⟩

lemma isinUid_ne_empty (isin : String) : ("isin_" ++ isin) ≠ "" := by
  intro h
  have hlen := congrArg String.length h
  rw [String.length_append] at hlen
  have h5 : ("isin_" : String).length = 5 := rfl
  have h0 : ("" : String).length = 0 := rfl
  omega

lemma isin_ne_isinUid (isin : String) : isin ≠ "isin_" ++ isin := by
  intro h
  have hlen := congrArg String.length h
  rw [String.length_append] at hlen
  have h5 : ("isin_" : String).length = 5 := rfl
  omega

/-- C4: for a well-formed ISIN absent from the registry, resolution
returns nothing; convert_ticker with auto-discovery enabled invokes the
discovery delegate exactly once, registers any discovered security under
the isin_ uid, and returns exactly the alias a retried lookup yields,
which is nothing when discovery found nothing. -/
theorem c4_isin_discovery (delegate : String → Option String) (s : RegState)
    (isin toSource : String)
    (hshape : looksLikeIsin isin = true)
    (had : s.autoDiscover = true)
    (h1 : lookupA s.securities isin = none)
    (h2 : lookupA s.securities ("isin_" ++ isin) = none)
    (h3 : lookupA s.tickerIndex (strUpper isin) = none)
    (h4 : lookupA s.tickerIndex (strLower isin) = none) :
    getSecurity s isin = none ∧
    (convertTicker delegate s isin toSource).2.2 = 1 ∧
    (∀ yt, delegate isin = some yt →
       lookupA (convertTicker delegate s isin toSource).2.1.securities ("isin_" ++ isin) =
         some (createSecurityFromDiscovery isin yt)) ∧
    (convertTicker delegate s isin toSource).1 =
      (match getSecurity (convertTicker delegate s isin toSource).2.1 isin with
       | some sec2 => sec2.getTicker toSource
       | none => none) ∧
    (delegate isin = none → (convertTicker delegate s isin toSource).1 = none) := by
  have hres : getSecurity s isin = none := by
    simp [getSecurity, getSecurityEntry, h1, hshape, h2, h3, h4, truthy?]
  have hconv : convertTicker delegate s isin toSource =
      (match discoverFromIsin delegate s isin with
       | (some sec, s', n) => (sec.getTicker toSource, s', n)
       | (none, s', n) => (none, s', n)) := by
    simp [convertTicker, hres, had, hshape]
  cases hd : delegate isin with
  | none =>
    have hdisc : discoverFromIsin delegate s isin = (none, s, 1) := by
      simp [discoverFromIsin, hd]
    have hct : convertTicker delegate s isin toSource = (none, s, 1) := by
      rw [hconv, hdisc]
    refine ⟨hres, by rw [hct], ?_, ?_, ?_⟩
    · intro yt hyt
      exact absurd hyt (by simp)
    · rw [hct]
      simp [hres]
    · intro _
      rw [hct]
  | some yt =>
    have huidne : (createSecurityFromDiscovery isin yt).uid ≠ "" :=
      isinUid_ne_empty isin
    have hdisc : discoverFromIsin delegate s isin =
        (some (createSecurityFromDiscovery isin yt),
          { registerSecurity s (createSecurityFromDiscovery isin yt) with
              saveLog :=
                (registerSecurity s (createSecurityFromDiscovery isin yt)).saveLog + 1 },
          1) := by
      simp [discoverFromIsin, hd]
    have hct : convertTicker delegate s isin toSource =
        ((createSecurityFromDiscovery isin yt).getTicker toSource,
          { registerSecurity s (createSecurityFromDiscovery isin yt) with
              saveLog :=
                (registerSecurity s (createSecurityFromDiscovery isin yt)).saveLog + 1 },
          1) := by
      rw [hconv, hdisc]
    have hs' : (convertTicker delegate s isin toSource).2.1.securities =
        (registerSecurity s (createSecurityFromDiscovery isin yt)).securities := by
      rw [hct]
    have hlookup :
        lookupA (registerSecurity s (createSecurityFromDiscovery isin yt)).securities
          ("isin_" ++ isin) = some (createSecurityFromDiscovery isin yt) := by
      rw [register_securities_lookup s _ _ huidne]
      have hu : (createSecurityFromDiscovery isin yt).uid = "isin_" ++ isin := rfl
      rw [hu, if_pos rfl]
    have hget : getSecurity (convertTicker delegate s isin toSource).2.1 isin =
        some (createSecurityFromDiscovery isin yt) := by
      have e1 : lookupA (convertTicker delegate s isin toSource).2.1.securities isin = none := by
        rw [hs', register_securities_lookup s _ _ huidne]
        have hu : (createSecurityFromDiscovery isin yt).uid = "isin_" ++ isin := rfl
        rw [hu, if_neg (isin_ne_isinUid isin)]
        exact h1
      have e2 : lookupA (convertTicker delegate s isin toSource).2.1.securities
          ("isin_" ++ isin) = some (createSecurityFromDiscovery isin yt) := by
        rw [hs']
        exact hlookup
      simp [getSecurity, getSecurityEntry, e1, hshape, e2]
    refine ⟨hres, by rw [hct], ?_, ?_, ?_⟩
    · intro yt2 hyt2
      injection hyt2 with hyt2
      subst hyt2
      rw [hs']
      exact hlookup
    · simp only [hget]
      rw [hct]
    · intro h0
      exact absurd h0 (by simp)

theorem c4_witness :
    getSecurity (emptyState true) "PLXTRDM00011" = none ∧
    (convertTicker delegateW (emptyState true) "PLXTRDM00011" "yahoo").2.2 = 1 ∧
    (∀ yt, delegateW "PLXTRDM00011" = some yt →
       lookupA (convertTicker delegateW (emptyState true) "PLXTRDM00011" "yahoo").2.1.securities
         ("isin_" ++ "PLXTRDM00011") =
           some (createSecurityFromDiscovery "PLXTRDM00011" yt)) ∧
    (convertTicker delegateW (emptyState true) "PLXTRDM00011" "yahoo").1 =
      (match getSecurity
          (convertTicker delegateW (emptyState true) "PLXTRDM00011" "yahoo").2.1
          "PLXTRDM00011" with
       | some sec2 => sec2.getTicker "yahoo"
       | none => none) ∧
    (delegateW "PLXTRDM00011" = none →
      (convertTicker delegateW (emptyState true) "PLXTRDM00011" "yahoo").1 = none) :=
  c4_isin_discovery delegateW (emptyState true) "PLXTRDM00011" "yahoo"
    (by decide) rfl rfl rfl rfl rfl

lemma attemptRes_eq (env : FetchEnv) (tmap : List (String × String)) (id src : String) :
    attemptRes env tmap id src = (fetchFromSource env src ((lookupA tmap src).getD id)).1 :=
  rfl

lemma tryLoop_all_err (env : FetchEnv) (tmap : List (String × String)) (id : String) :
    ∀ (srcs : List String) (le : Option String),
      (∀ s ∈ srcs, isErrE (attemptRes env tmap id s) = true) →
      ∃ e, (tryLoop env tmap id srcs le).1 = FetchResult.exhausted e := by
  intro srcs
  induction srcs with
  | nil =>
    intro le _
    exact ⟨le, rfl⟩
  | cons x rest ih =>
    intro le h
    have hx := h x (List.mem_cons_self x rest)
    cases hfs : fetchFromSource env x ((lookupA tmap x).getD id) with
    | mk r att =>
      cases r with
      | ok d =>
        rw [attemptRes_eq, hfs] at hx
        simp [isErrE] at hx
      | error e =>
        have hstep : (tryLoop env tmap id (x :: rest) le).1 =
            (tryLoop env tmap id rest (some e)).1 := by
          simp [tryLoop, hfs]
        rw [hstep]
        exact ih (some e) (fun s hs => h s (List.mem_cons_of_mem x hs))

lemma tryLoop_first_ok (env : FetchEnv) (tmap : List (String × String)) (id : String) :
    ∀ (pre : List String) (src : String) (post : List String) (d : Nat) (le : Option String),
      (∀ s ∈ pre, isErrE (attemptRes env tmap id s) = true) →
      attemptRes env tmap id src = Except.ok d →
      (tryLoop env tmap id (pre ++ src :: post) le).1 = FetchResult.ok d := by
  intro pre
  induction pre with
  | nil =>
    intro src post d le _ hok
    cases hfs : fetchFromSource env src ((lookupA tmap src).getD id) with
    | mk r att =>
      rw [attemptRes_eq, hfs] at hok
      subst hok
      simp [tryLoop, hfs]
  | cons x rest ih =>
    intro src post d le h hok
    have hx := h x (List.mem_cons_self x rest)
    cases hfs : fetchFromSource env x ((lookupA tmap x).getD id) with
    | mk r att =>
      cases r with
      | ok d2 =>
        rw [attemptRes_eq, hfs] at hx
        simp [isErrE] at hx
      | error e =>
        have hstep : (tryLoop env tmap id ((x :: rest) ++ src :: post) le).1 =
            (tryLoop env tmap id (rest ++ src :: post) (some e)).1 := by
          simp [tryLoop, hfs]
        rw [hstep]
        exact ih src post d (some e) (fun s hs => h s (List.mem_cons_of_mem x hs)) hok

lemma tryLoop_last_err (env : FetchEnv) (tmap : List (String × String)) (id : String) :
    ∀ (srcs : List String) (le : Option String), srcs ≠ [] →
      (∀ s ∈ srcs, isErrE (attemptRes env tmap id s) = true) →
      (tryLoop env tmap id srcs le).1 =
        FetchResult.exhausted (errOf (attemptRes env tmap id (srcs.getLastD ""))) := by
  intro srcs
  induction srcs with
  | nil =>
    intro le hne _
    exact absurd rfl hne
  | cons x rest ih =>
    intro le _ h
    have hx := h x (List.mem_cons_self x rest)
    cases hfs : fetchFromSource env x ((lookupA tmap x).getD id) with
    | mk r att =>
      cases r with
      | ok d =>
        rw [attemptRes_eq, hfs] at hx
        simp [isErrE] at hx
      | error e =>
        cases rest with
        | nil =>
          have hstep : (tryLoop env tmap id [x] le).1 = FetchResult.exhausted (some e) := by
            simp [tryLoop, hfs]
          have ha : attemptRes env tmap id x = Except.error e := by
            rw [attemptRes_eq, hfs]
          rw [hstep, show ([x] : List String).getLastD "" = x from rfl, ha]
          rfl
        | cons y rest2 =>
          have hstep : (tryLoop env tmap id (x :: y :: rest2) le).1 =
              (tryLoop env tmap id (y :: rest2) (some e)).1 := by
            simp [tryLoop, hfs]
          rw [hstep, ih (some e) (by simp) (fun s hs => h s (List.mem_cons_of_mem x hs))]
          have hgl : (x :: y :: rest2).getLastD "" = (y :: rest2).getLastD "" := by
            simp [List.getLastD_cons]
          rw [hgl]

/-- C1: without a forced source, a fetch whose every routed candidate
attempt raises ends in the terminal exhaustion error, while a fetch whose
earlier candidates raise and a later candidate succeeds returns that
data of that candidate, never surfacing the earlier failures. -/
theorem c1_fallback_semantics (env : FetchEnv) (reg : Option RegState) (id : String) :
    ((∀ s ∈ (candidates env reg id).1,
        isErrE (attemptRes env (candidates env reg id).2 id s) = true) →
      ∃ e, (fetchUni env reg id none).1 = FetchResult.exhausted e) ∧
    (∀ pre src post d, (candidates env reg id).1 = pre ++ src :: post →
      (∀ s ∈ pre, isErrE (attemptRes env (candidates env reg id).2 id s) = true) →
      attemptRes env (candidates env reg id).2 id src = Except.ok d →
      (fetchUni env reg id none).1 = FetchResult.ok d) := by
  have hfu : fetchUni env reg id none =
      tryLoop env (candidates env reg id).2 id (candidates env reg id).1 none := rfl
  constructor
  · intro h
    rw [hfu]
    exact tryLoop_all_err env _ id _ none h
  · intro pre src post d hsplit h hok
    rw [hfu, hsplit]
    exact tryLoop_first_ok env _ id pre src post d none h hok

theorem c1_witness :
    (∃ e, (fetchUni envPlain none "ZZZZZZZ" none).1 = FetchResult.exhausted e) ∧
    (fetchUni envOk none "ZZZZZZZ" none).1 = FetchResult.ok 7 :=
  ⟨(c1_fallback_semantics envPlain none "ZZZZZZZ").1 (by decide),
   (c1_fallback_semantics envOk none "ZZZZZZZ").2 ["yahoo"] "stooq" ["pdr"] 7
     (by decide) (by decide) (by rfl)⟩

/-- C5 (amended): when every candidate fails, the terminal error carries
only the most recent recorded failure, the error of the final candidate,
rather than the ordered list of all per-provider failures. -/
theorem c5_last_error_only (env : FetchEnv) (reg : Option RegState) (id : String)
    (hne : (candidates env reg id).1 ≠ [])
    (hall : ∀ s ∈ (candidates env reg id).1,
      isErrE (attemptRes env (candidates env reg id).2 id s) = true) :
    (fetchUni env reg id none).1 =
      FetchResult.exhausted
        (errOf (attemptRes env (candidates env reg id).2 id
          ((candidates env reg id).1.getLastD ""))) := by
  have hfu : fetchUni env reg id none =
      tryLoop env (candidates env reg id).2 id (candidates env reg id).1 none := rfl
  rw [hfu]
  exact tryLoop_last_err env _ id _ none hne hall

theorem c5_witness :
    (fetchUni envPlain none "ZZZZZZZ" none).1 =
      FetchResult.exhausted
        (errOf (attemptRes envPlain (candidates envPlain none "ZZZZZZZ").2 "ZZZZZZZ"
          ((candidates envPlain none "ZZZZZZZ").1.getLastD ""))) :=
  c5_last_error_only envPlain none "ZZZZZZZ" (by decide) (by decide)

/-- C5 counterexample: three candidates are attempted and fail with three
distinct errors, yet the terminal error carries only the last one, not the
ordered list of all three per-provider failures. -/
theorem c5_counterexample :
    fetchUni envPlain none "ZZZZZZZ" none =
      (FetchResult.exhausted (some "fail-pdr"), ["yahoo", "stooq", "pdr"]) ∧
    carriedFailures (fetchUni envPlain none "ZZZZZZZ" none).1 = ["fail-pdr"] ∧
    ["fail-pdr"] ≠ ["fail-yahoo", "fail-stooq", "fail-pdr"] :=
  ⟨by decide, by decide, by decide⟩

lemma strUpper_length (s : String) : (strUpper s).length = s.length := by
  rw [strUpper]
  show (s.data.map Char.toUpper).length = s.length
  rw [List.length_map]
  rfl

lemma upper_not_lower {c : Char} (hc : isUpperAlpha c = true) :
    ('a' ≤ c && c ≤ 'z') = false := by
  simp only [isUpperAlpha, Bool.and_eq_true, decide_eq_true_eq] at hc
  obtain ⟨h1, h2⟩ := hc
  have hnl : ¬ ('a' ≤ c) := fun ha => absurd (le_trans ha h2) (by decide)
  rw [decide_eq_false hnl, Bool.false_and]

lemma string_data_ne_nil {s : String} (hne : 1 ≤ s.length) : s.data ≠ [] := by
  intro h
  have : s.length = 0 := by simp [String.length, h]
  omega

lemma pyIsUpper_of_all_upper {s : String} (h : s.data.all isUpperAlpha = true)
    (hne : 1 ≤ s.length) : pyIsUpper s = true := by
  rw [List.all_eq_true] at h
  have hany : s.data.any isAsciiAlpha = true := by
    cases hd : s.data with
    | nil => exact absurd hd (string_data_ne_nil hne)
    | cons c t =>
      have hc := h c (by rw [hd]; exact List.mem_cons_self c t)
      simp only [isUpperAlpha, Bool.and_eq_true, decide_eq_true_eq] at hc
      simp [List.any_cons, isAsciiAlpha]
      exact Or.inl (Or.inl hc)
  have hall : s.data.all (fun c => !('a' ≤ c && c ≤ 'z')) = true := by
    rw [List.all_eq_true]
    intro c hc
    rw [upper_not_lower (h c hc)]
    rfl
  rw [pyIsUpper, hany, hall]
  rfl

lemma not_caret {s : String} (h : s.data.all isUpperAlpha = true) (hne : 1 ≤ s.length) :
    strStarts s "^" = false := by
  rw [List.all_eq_true] at h
  rw [strStarts]
  have hdata : ("^" : String).data = ['^'] := rfl
  rw [hdata]
  cases hd : s.data with
  | nil => exact absurd hd (string_data_ne_nil hne)
  | cons c t =>
    have hc := h c (by rw [hd]; exact List.mem_cons_self c t)
    have hcne : ¬ ('^' = c) := by
      intro he
      rw [← he] at hc
      exact absurd hc (by decide)
    have hbeq : ('^' == c) = false := by
      simp [hcne]
    simp [startsWithL, hbeq]

/-- C3 (amended): a one-to-five character all-uppercase-letter identifier
that the registry does not resolve routes to a candidate list headed by
the general-equity provider yahoo, provided none of the earlier
decision-list rules fires: the identifier is not crypto-shaped, is not in
the Polish stock or index lists, is not a configured NBP currency code,
and the FRED provider, whose economic-indicator pattern also matches every
short uppercase token, is not among the configured fetchers. -/
theorem c3_route_short_upper (env : FetchEnv) (ticker : String)
    (hlen1 : 1 ≤ ticker.length) (hlen5 : ticker.length ≤ 5)
    (hup : ticker.data.all isUpperAlpha = true)
    (hcr : env.cryptoPred ticker = false)
    (hps : POLISH_STOCKS.contains (strLower ticker) = false)
    (hpi : POLISH_INDICES.contains (strLower ticker) = false)
    (hnbp : (NBP_CURRENCIES.contains (strUpper ticker) && env.nbpAvailable) = false)
    (hfred : env.fetchers.contains "fred" = false) :
    (routeTicker env ticker).head? = some "yahoo" := by
  have hl6 : decide ((strUpper ticker).length = 6) = false :=
    decide_eq_false (by rw [strUpper_length]; omega)
  have hpy : pyIsUpper ticker = true := pyIsUpper_of_all_upper hup hlen1
  have hcaret : strStarts ticker "^" = false := not_caret hup hlen1
  have hl1 : decide (1 ≤ ticker.length) = true := decide_eq_true hlen1
  have hl5 : decide (ticker.length ≤ 5) = true := decide_eq_true hlen5
  have hps' : ¬ (strLower ticker ∈ POLISH_STOCKS) := by simpa using hps
  have hpi' : ¬ (strLower ticker ∈ POLISH_INDICES) := by simpa using hpi
  have hfred' : ¬ ("fred" ∈ env.fetchers) := by simpa using hfred
  have hnbp' : ¬ (strUpper ticker ∈ NBP_CURRENCIES ∧ env.nbpAvailable = true) := by
    intro hand
    obtain ⟨hm, hb⟩ := hand
    have hmc : NBP_CURRENCIES.contains (strUpper ticker) = true := by simpa using hm
    rw [hmc, hb] at hnbp
    simp at hnbp
  simp [routeTicker, hcr, hps', hpi', hnbp', hl6, hfred', hcaret, hpy, hl1, hl5]

theorem c3_witness : (routeTicker envPlain "AAPL").head? = some "yahoo" :=
  c3_route_short_upper envPlain "AAPL" (by decide) (by decide) (by decide) (by decide)
    (by decide) (by decide) (by decide) (by decide)

/-- C3 counterexample: AAPL is a four character all-uppercase identifier
that an empty registry does not resolve, yet under a configuration with
the FRED provider present the routed candidate list starts with fred, not
with the general-equity provider yahoo. -/
theorem c3_counterexample :
    (1 ≤ "AAPL".length ∧ "AAPL".length ≤ 5 ∧ "AAPL".data.all isUpperAlpha = true) ∧
    candidates envFred (some (emptyState true)) "AAPL" =
      (["fred", "pdr"], [("fred", "AAPL"), ("pdr", "AAPL")]) ∧
    ¬ ((routeTicker envFred "AAPL").head? = some "yahoo") :=
  ⟨by decide, by decide, by decide⟩

lemma insertDesc_mem (d : Int) (l : List Int) (a : Int) :
    a ∈ insertDesc d l ↔ a = d ∨ a ∈ l := by
  induction l with
  | nil => simp [insertDesc]
  | cons x xs ih =>
    rw [insertDesc]
    by_cases h1 : d > x
    · rw [if_pos h1]
      simp [List.mem_cons]
    · rw [if_neg h1]
      by_cases h2 : d = x
      · rw [if_pos h2]
        subst h2
        simp [List.mem_cons]
      · rw [if_neg h2]
        simp only [List.mem_cons, ih]
        tauto

lemma insertDesc_sorted (d : Int) (l : List Int) (hl : l.Pairwise (· > ·)) :
    (insertDesc d l).Pairwise (· > ·) := by
  induction l with
  | nil => simp [insertDesc]
  | cons x xs ih =>
    rw [List.pairwise_cons] at hl
    obtain ⟨hx, hxs⟩ := hl
    rw [insertDesc]
    by_cases h1 : d > x
    · rw [if_pos h1]
      rw [List.pairwise_cons]
      constructor
      · intro a ha
        rcases List.mem_cons.mp ha with rfl | ha2
        · exact h1
        · exact gt_trans h1 (hx a ha2)
      · exact List.pairwise_cons.mpr ⟨hx, hxs⟩
    · rw [if_neg h1]
      by_cases h2 : d = x
      · rw [if_pos h2]
        exact List.pairwise_cons.mpr ⟨hx, hxs⟩
      · rw [if_neg h2]
        rw [List.pairwise_cons]
        constructor
        · intro a ha
          rcases (insertDesc_mem d xs a).mp ha with rfl | ha2
          · exact lt_of_le_of_ne (not_lt.mp h1) h2
          · exact hx a ha2
        · exact ih hxs

lemma sortedUnionDesc_go (ds : List Int) :
    ∀ acc : List Int, acc.Pairwise (· > ·) →
      (ds.foldl (fun acc d => insertDesc d acc) acc).Pairwise (· > ·) ∧
      (∀ a, a ∈ ds.foldl (fun acc d => insertDesc d acc) acc ↔ a ∈ ds ∨ a ∈ acc) := by
  induction ds with
  | nil =>
    intro acc h
    exact ⟨h, by simp⟩
  | cons d rest ih =>
    intro acc h
    obtain ⟨hs, hm⟩ := ih (insertDesc d acc) (insertDesc_sorted d acc h)
    refine ⟨by simpa using hs, ?_⟩
    intro a
    rw [List.foldl_cons, hm a, insertDesc_mem]
    simp [List.mem_cons]
    tauto

lemma sortedUnionDesc_sorted (ds : List Int) : (sortedUnionDesc ds).Pairwise (· > ·) :=
  (sortedUnionDesc_go ds [] (by simp)).1

lemma sortedUnionDesc_mem (ds : List Int) (a : Int) : a ∈ sortedUnionDesc ds ↔ a ∈ ds := by
  have h := (sortedUnionDesc_go ds [] (by simp)).2 a
  simpa [sortedUnionDesc] using h

lemma eventDivisor_single (D : Int) (v : ℚ) (x : Int) :
    eventDivisor [(D, v)] x = if D = x then v else 1 := by
  by_cases h : D = x <;> simp [eventDivisor, List.foldl, h]

lemma prodGE_of_not_ge (evs : List (Int × ℚ)) (d : Int) :
    ∀ xs : List Int, (∀ x ∈ xs, ¬ d ≤ x) → prodGE evs d xs = 1 := by
  intro xs
  induction xs with
  | nil => intro _; rfl
  | cons x t ih =>
    intro h
    rw [prodGE, if_neg (h x (List.mem_cons_self x t)), one_mul]
    exact ih (fun y hy => h y (List.mem_cons_of_mem x hy))

lemma prodGE_single_no_event (D : Int) (v : ℚ) (d : Int) :
    ∀ xs : List Int, D ∉ xs → prodGE [(D, v)] d xs = 1 := by
  intro xs
  induction xs with
  | nil => intro _; rfl
  | cons x t ih =>
    intro h
    have hx : D ≠ x := fun he => h (he ▸ List.mem_cons_self x t)
    rw [prodGE, eventDivisor_single, if_neg hx,
      ih (fun hm => h (List.mem_cons_of_mem x hm))]
    simp

lemma prodGE_single (D : Int) (v : ℚ) (d : Int) :
    ∀ dates : List Int, dates.Pairwise (· > ·) → D ∈ dates →
      prodGE [(D, v)] d dates = if d ≤ D then v else 1 := by
  intro dates
  induction dates with
  | nil =>
    intro _ hD
    exact absurd hD (List.not_mem_nil D)
  | cons x xs ih =>
    intro hpw hD
    rw [List.pairwise_cons] at hpw
    obtain ⟨hx, hxs⟩ := hpw
    rcases List.mem_cons.mp hD with rfl | hDxs
    · have hnot : D ∉ xs := fun hm => absurd (hx D hm) (lt_irrefl D)
      rw [prodGE, eventDivisor_single, prodGE_single_no_event D v d xs hnot, mul_one]
      by_cases h : d ≤ D <;> simp [h]
    · have hlt : D < x := hx D hDxs
      have hDx : D ≠ x := fun he => absurd hlt (by rw [he]; exact lt_irrefl x)
      rw [prodGE, eventDivisor_single, if_neg hDx, ih hxs hDxs]
      simp

lemma buildCum_lookup (evs : List (Int × ℚ)) :
    ∀ (dates : List Int) (run : ℚ) (d : Int),
      dates.Pairwise (· > ·) → d ∈ dates →
      lookupA (buildCum evs dates run) d = some (run * prodGE evs d dates) := by
  intro dates
  induction dates with
  | nil =>
    intro run d _ hd
    exact absurd hd (List.not_mem_nil d)
  | cons x xs ih =>
    intro run d hpw hd
    rw [List.pairwise_cons] at hpw
    obtain ⟨hx, hxs⟩ := hpw
    by_cases hdx : d = x
    · subst hdx
      have hxs1 : prodGE evs d xs = 1 :=
        prodGE_of_not_ge evs d xs (fun y hy => not_le.mpr (hx y hy))
      simp only [buildCum, lookupA, eq_self_iff_true, if_true]
      rw [prodGE, hxs1, if_pos (le_refl d), mul_one]
    · have hdxs : d ∈ xs := (List.mem_cons.mp hd).resolve_left hdx
      simp only [buildCum, lookupA]
      rw [if_neg hdx, ih (run * eventDivisor evs x) d hxs hdxs]
      have hlt : d < x := hx d hdxs
      rw [prodGE, if_pos (le_of_lt hlt), mul_assoc]

/-- C6 (amended): adjusting a price series against a single split event of
divisor two on date D halves the close of every row dated on or before D,
the event date itself included, and leaves every row dated strictly after
D unchanged. -/
theorem c6_split_adjust (prices : List (Int × ℚ)) (D : Int) :
    adjust prices [(D, 2)] =
      prices.map (fun p => (p.1, p.2, if p.1 ≤ D then p.2 / 2 else p.2)) := by
  show prices.map (fun p => (p.1, p.2, p.2 /
      ((lookupA (buildCum [(D, (2 : ℚ))]
          (sortedUnionDesc (prices.map Prod.fst ++ [(D, (2 : ℚ))].map Prod.fst)) 1)
        p.1).getD 1)))
    = prices.map (fun p => (p.1, p.2, if p.1 ≤ D then p.2 / 2 else p.2))
  apply List.map_congr_left
  intro p hp
  have hsorted := sortedUnionDesc_sorted (prices.map Prod.fst ++ [(D, (2 : ℚ))].map Prod.fst)
  have hDmem : D ∈ sortedUnionDesc (prices.map Prod.fst ++ [(D, (2 : ℚ))].map Prod.fst) :=
    (sortedUnionDesc_mem _ D).mpr (List.mem_append_right _ (by simp))
  have hpmem : p.1 ∈ sortedUnionDesc (prices.map Prod.fst ++ [(D, (2 : ℚ))].map Prod.fst) :=
    (sortedUnionDesc_mem _ p.1).mpr
      (List.mem_append_left _ (List.mem_map_of_mem Prod.fst hp))
  rw [buildCum_lookup [(D, 2)] _ 1 p.1 hsorted hpmem,
    prodGE_single D 2 p.1 _ hsorted hDmem]
  simp only [one_mul, Option.getD_some]
  by_cases h : p.1 ≤ D
  · rw [if_pos h, if_pos h]
  · rw [if_neg h, if_neg h, div_one]

/-- C6 counterexample: with a single split of divisor two dated 5, the
price row dated exactly 5 is adjusted to five, half its close of ten,
although the claim asserts rows dated on or after the event date keep
their close. -/
theorem c6_counterexample :
    adjust [(5, 10)] [(5, 2)] = [(5, 10, 5)] ∧ ((5 : ℚ) ≠ 10) := by
  constructor
  · norm_num [adjust, sortedUnionDesc, insertDesc, buildCum, eventDivisor, lookupA,
      List.foldl]
  · norm_num
